import Mathlib

/-!
Verification of the ALLP (Actionable Log Lines Protocol) core:
the beads reference adapter, the adapter registry, and the query
interpreter, shallowly embedded from the TypeScript sources.

JavaScript strings are modelled by Lean `String`; the handful of
string primitives the code uses (`trim`, `toLowerCase`, `split`,
`includes`, `join`) are defined below over the character list so
that every definition is executable and kernel-reducible.  The
whitespace class is the ASCII part of JavaScript whitespace, which
covers every input the code and its tests exercise.
-/

set_option autoImplicit false

namespace ALLP

/-- ASCII whitespace: the characters of JavaScript's whitespace class
(`trim`, regular-expression `\s`) restricted to ASCII. -/
def isWs (c : Char) : Bool :=
  c = ' ' || c = '\t' || c = '\n' || c = '\r' || c = '\x0b' || c = '\x0c'

/-- JavaScript `String.prototype.trim`: drop whitespace from both ends. -/
def jsTrim (s : String) : String :=
  ⟨((s.data.dropWhile isWs).reverse.dropWhile isWs).reverse⟩

/-- JavaScript `String.prototype.toLowerCase` on ASCII data. -/
def jsToLower (s : String) : String :=
  ⟨s.data.map Char.toLower⟩

/-- JavaScript `String.prototype.includes` with a one-character needle. -/
def includesChar (s : String) (c : Char) : Bool :=
  s.data.contains c

/-- Split a character list at every character satisfying `p`, keeping empty
pieces, as JavaScript `split` does with a one-character separator. -/
def splitPred (p : Char → Bool) : List Char → List (List Char)
  | [] => [[]]
  | c :: cs =>
    let r := splitPred p cs
    if p c then [] :: r
    else
      match r with
      | h :: t => (c :: h) :: t
      | [] => [[c]]

/-- JavaScript `s.split(sep)` for a one-character separator `sep`. -/
def jsSplit (sep : Char) (s : String) : List String :=
  (splitPred (fun c => c = sep) s.data).map (fun l => ⟨l⟩)

/-- JavaScript `[...].join(sep)`. -/
def joinSep (sep : String) : List String → String
  | [] => ""
  | [x] => x
  | x :: xs => x ++ sep ++ joinSep sep xs

/-- JavaScript `trimmed.split(/\s+/)` as it behaves on an already-trimmed
string: the empty string yields `[""]`, any other trimmed string yields its
whitespace-separated tokens. -/
def splitWsTokens (s : String) : List String :=
  if s = "" then [""]
  else ((splitPred isWs s.data).filter (fun l => l ≠ [])).map (fun l => (⟨l⟩ : String))

/-- The test `timestamp.match(/^\d{4}-\d{2}-\d{2}T/)` used by
`BeadsAdapter.parse`: the string starts with four digits, a dash, two
digits, a dash, two digits and a capital `T`. -/
def isIsoStart (s : String) : Bool :=
  match s.data with
  | y1 :: y2 :: y3 :: y4 :: h1 :: m1 :: m2 :: h2 :: d1 :: d2 :: t :: _ =>
    y1.isDigit && y2.isDigit && y3.isDigit && y4.isDigit && h1 = '-' &&
    m1.isDigit && m2.isDigit && h2 = '-' && d1.isDigit && d2.isDigit && t = 'T'
  | _ => false

/-! The protocol value types (`src/protocol.ts`).  Promised results are
modelled by plain values: per the design, all suspension points are awaited
to completion before the caller's result is produced. -/

/-- Result of a user query (`QueryResult` in `protocol.ts`). -/
structure QueryResult where
  handled : Bool
  content : String
  error : Option String := none
  deriving Repr, DecidableEq

/-- Result of expanding a log line (`ExpansionResult` in `protocol.ts`).
`data` is modelled as the ordered entry list of the JavaScript object. -/
structure ExpansionResult where
  content : String
  data : Option (List (String × String)) := none
  suggestions : Option (List String) := none
  deriving Repr, DecidableEq

/-- A command available for a log line (`Command` in `protocol.ts`). -/
structure Command where
  name : String
  aliases : List String
  description : String
  handler : String → QueryResult

/-- Source identity of a parsed line.  `context` is the ordered,
string-valued entry list of the adapter's context object. -/
structure Source where
  type : String
  id : String
  context : List (String × String)
  deriving Repr, DecidableEq

/-- Core log line (`ActionableLogLine` in `protocol.ts`). -/
structure ActionableLogLine where
  timestamp : String
  message : String
  level : Option String := none
  raw : String
  source : Source
  availableCommands : List Command
  getDefaultExpansion : ExpansionResult
  handleQuery : String → QueryResult

/-! The beads reference adapter (`src/adapters/beads.ts`). -/

/-- Outcome of `execAsync` on an external command: either captured stdout,
or a failure carrying the error's `stderr` and `message` strings. -/
structure BdError where
  stderr : String
  message : String
  deriving Repr, DecidableEq

inductive BdOutcome where
  | ok (stdout : String)
  | fail (e : BdError)
  deriving Repr, DecidableEq

/-- Behaviour of the external process environment: what `execAsync` yields
for each full command string. -/
def BdEnv := String → BdOutcome

/-- `runBdCommand`: run `bd <args>`, returning trimmed stdout on success and
`err.stderr || err.message || 'Command failed'` on failure. -/
def runBdCommand (env : BdEnv) (args : String) : String :=
  match env ("bd " ++ args) with
  | .ok stdout => jsTrim stdout
  | .fail e =>
    if e.stderr ≠ "" then e.stderr
    else if e.message ≠ "" then e.message
    else "Command failed"

/-- `EVENT_CATEGORIES`: fixed category taxonomy, as an ordered entry list. -/
def EVENT_CATEGORIES : List (String × String) :=
  [("ep", "Epoch (app lifecycle)"),
   ("ss", "Session (agent workflows)"),
   ("sk", "Skill (Claude skill activations)"),
   ("bd", "Beads (issue operations)"),
   ("gt", "Git (version control)"),
   ("hk", "Hook (git hook triggers)"),
   ("gd", "Guard (enforcement)")]

/-- `parseEventCode`: split on `.`; the first piece is the category, the
remaining pieces rejoined with `.` are the action. -/
def parseEventCode (eventCode : String) : String × String :=
  match jsSplit '.' eventCode with
  | [] => ("", "")
  | category :: rest => (category, joinSep "." rest)

/-- Context extracted from a beads log line (`BeadsContext`). -/
structure BeadsContext where
  timestamp : String
  eventCode : String
  issueId : String
  agentId : String
  sessionId : String
  details : String
  deriving Repr, DecidableEq

/-- `Object.entries` of a `BeadsContext`, in declaration order. -/
def BeadsContext.entries (ctx : BeadsContext) : List (String × String) :=
  [("timestamp", ctx.timestamp), ("eventCode", ctx.eventCode),
   ("issueId", ctx.issueId), ("agentId", ctx.agentId),
   ("sessionId", ctx.sessionId), ("details", ctx.details)]

/-- `createBeadsCommands`: the seven per-line commands, bound to the parsed
context.  Empty-string tests model JavaScript truthiness of strings. -/
def createBeadsCommands (env : BdEnv) (context : BeadsContext) : List Command :=
  [{ name := "show", aliases := ["s"], description := "Show issue details",
     handler := fun _ =>
       if context.issueId = "" || context.issueId = "none" then
         { handled := true, content := "No issue associated with this event" }
       else
         { handled := true, content := runBdCommand env ("show " ++ context.issueId) } },
   { name := "related", aliases := ["r", "rel"], description := "Show related events",
     handler := fun _ =>
       if context.issueId ≠ "" && context.issueId ≠ "none" then
         { handled := true, content := runBdCommand env ("log --issue " ++ context.issueId) }
       else
         { handled := true,
           content := runBdCommand env
             ("log --category " ++ (parseEventCode context.eventCode).1 ++ " --last 20") } },
   { name := "deps", aliases := ["d", "dependencies"], description := "Show issue dependencies",
     handler := fun _ =>
       if context.issueId = "" || context.issueId = "none" then
         { handled := true, content := "No issue associated with this event" }
       else
         { handled := true, content := runBdCommand env ("show " ++ context.issueId) } },
   { name := "category", aliases := ["c", "cat"], description := "Filter by event category",
     handler := fun params =>
       let cat := if params ≠ "" then params else (parseEventCode context.eventCode).1
       { handled := true, content := runBdCommand env ("log --category " ++ cat ++ " --last 30") } },
   { name := "session", aliases := ["sess"], description := "Show events from this session",
     handler := fun _ =>
       if context.sessionId = "" then
         { handled := true, content := "No session ID available" }
       else
         { handled := true, content := runBdCommand env ("log --session " ++ context.sessionId) } },
   { name := "before", aliases := ["b"], description := "Show events before this timestamp",
     handler := fun _ =>
       { handled := true,
         content := runBdCommand env ("log --until " ++ context.timestamp ++ " --last 20") } },
   { name := "after", aliases := ["a"], description := "Show events after this timestamp",
     handler := fun _ =>
       { handled := true,
         content := runBdCommand env ("log --since " ++ context.timestamp ++ " --last 20") } }]

/-- The command token of an input: first whitespace-delimited token of the
trimmed, lowercased input. -/
def cmdTokenOf (input : String) : String :=
  (splitWsTokens (jsToLower (jsTrim input))).headD ""

/-- The parameter string of an input: remaining tokens rejoined with single
spaces. -/
def cmdParamsOf (input : String) : String :=
  joinSep " " (splitWsTokens (jsToLower (jsTrim input))).tail

/-- The `for (const cmd of commands)` matching loop of the beads line's
`handleQuery`: first command whose name or alias equals the token. -/
def findCommand (tok : String) : List Command → Option Command
  | [] => none
  | cmd :: rest =>
    if cmd.name == tok || cmd.aliases.contains tok then some cmd
    else findCommand tok rest

/-- The beads line's `handleQuery` closure: trim and lowercase, split on
whitespace, dispatch the first token to the first matching command, passing
the rejoined remainder; otherwise report the unknown command with the
comma-joined command names. -/
def beadsHandleQuery (env : BdEnv) (context : BeadsContext) (input : String) : QueryResult :=
  let tok := cmdTokenOf input
  let params := cmdParamsOf input
  match findCommand tok (createBeadsCommands env context) with
  | some cmd => cmd.handler params
  | none =>
    { handled := false, content := "",
      error := some ("Unknown command: " ++ tok ++ ". Try: " ++
        joinSep ", " ((createBeadsCommands env context).map (fun c => c.name))) }

/-- The beads line's `getDefaultExpansion` closure. -/
def beadsDefaultExpansion (context : BeadsContext) : ExpansionResult :=
  let p := parseEventCode context.eventCode
  let categoryDesc :=
    ((EVENT_CATEGORIES.find? (fun e => e.1 == p.1)).map (fun e => e.2)).getD "Unknown"
  let content :=
    "**Event:** " ++ context.eventCode ++ "\n" ++
    "**Category:** " ++ categoryDesc ++ "\n" ++
    "**Action:** " ++ p.2 ++ "\n" ++
    (if context.issueId ≠ "" && context.issueId ≠ "none" then
       "**Issue:** " ++ context.issueId ++ "\n" else "") ++
    (if context.agentId ≠ "" then "**Agent:** " ++ context.agentId ++ "\n" else "") ++
    (if context.sessionId ≠ "" then "**Session:** " ++ context.sessionId ++ "\n" else "") ++
    (if context.details ≠ "" then "**Details:** " ++ context.details ++ "\n" else "")
  { content := content, data := some context.entries,
    suggestions := some ["show", "related", "category", "session"] }

/-- `createActionableLogLine`: assemble the entity from the raw line and the
parsed context. -/
def createActionableLogLine (env : BdEnv) (raw : String) (context : BeadsContext) :
    ActionableLogLine :=
  { timestamp := context.timestamp
    message := context.eventCode
    raw := raw
    source :=
      { type := "beads"
        id := if context.issueId = "" then context.eventCode else context.issueId
        context := context.entries }
    availableCommands := createBeadsCommands env context
    getDefaultExpansion := beadsDefaultExpansion context
    handleQuery := beadsHandleQuery env context }

/-- `BeadsAdapter.parse`: validate the pipe-delimited grammar, short-circuit
to `none` on the first failure, otherwise build the entity.  The function is
total over all strings: every branch yields a value and nothing throws. -/
def beadsParse (env : BdEnv) (rawLine : String) : Option ActionableLogLine :=
  if rawLine = "" then none
  else
    match jsSplit '|' rawLine with
    | timestamp :: eventCode :: issueId :: agentId :: sessionId :: detailParts =>
      if timestamp = "" || !(isIsoStart timestamp) then none
      else if eventCode = "" || !(includesChar eventCode '.') then none
      else
        some (createActionableLogLine env rawLine
          { timestamp := timestamp
            eventCode := eventCode
            issueId := if issueId = "" then "none" else issueId
            agentId := agentId
            sessionId := sessionId
            details := joinSep "|" detailParts })
    | _ => none

/-- Adapter capability (`SourceAdapter` in `protocol.ts`). -/
structure SourceAdapter where
  type : String
  parse : String → Option ActionableLogLine
  getDefaultExpansion : ActionableLogLine → ExpansionResult
  handleQuery : ActionableLogLine → String → QueryResult
  getCommands : List Command

/-- The `BeadsAdapter` object, parametrised by the external-process
environment captured by its handlers. -/
def BeadsAdapter (env : BdEnv) : SourceAdapter :=
  { type := "beads"
    parse := beadsParse env
    getDefaultExpansion := fun line => line.getDefaultExpansion
    handleQuery := fun line input => line.handleQuery input
    getCommands := createBeadsCommands env
      { timestamp := "", eventCode := "", issueId := "",
        agentId := "", sessionId := "", details := "" } }

/-! The query interpreter (`src/interpreter.ts`).  The process-wide fallback
configuration is passed explicitly; `interpret` reads it once per call. -/

/-- Configuration for the Claude fallback (`ClaudeFallbackConfig`).  The
handler yields a response string or fails with an error message. -/
structure ClaudeFallbackConfig where
  enabled : Bool
  handler : Option (String → String → Except String String) := none

/-- Default fallback config (disabled). -/
def defaultFallbackConfig : ClaudeFallbackConfig := { enabled := false }

/-- `formatContextForClaude`: type, timestamp, message and id lines, then
every context entry whose value is neither empty nor the `"none"` sentinel,
then the comma-joined command names with descriptions. -/
def formatContextForClaude (line : ActionableLogLine) : String :=
  let base :=
    "Log line context:\n" ++
    "- Type: " ++ line.source.type ++ "\n" ++
    "- Timestamp: " ++ line.timestamp ++ "\n" ++
    "- Message: " ++ line.message ++ "\n" ++
    "- ID: " ++ line.source.id ++ "\n"
  let withCtx := line.source.context.foldl
    (fun acc kv =>
      if kv.2 ≠ "" && kv.2 ≠ "none" then acc ++ "- " ++ kv.1 ++ ": " ++ kv.2 ++ "\n"
      else acc) base
  let commands := line.availableCommands.map (fun c => c.name ++ " (" ++ c.description ++ ")")
  withCtx ++ "\nAvailable commands: " ++ joinSep ", " commands

/-- `interpret`: try the line's own `handleQuery`; if it was handled return
its result unchanged; otherwise, when the fallback is enabled and a handler
is configured, invoke it on the formatted context, returning its response as
a handled result or its failure as the fallback error; otherwise return the
original unhandled result. -/
def interpret (cfg : ClaudeFallbackConfig) (line : ActionableLogLine) (input : String) :
    QueryResult :=
  let result := line.handleQuery input
  if result.handled then result
  else
    match cfg.enabled, cfg.handler with
    | true, some h =>
      match h (formatContextForClaude line) input with
      | .ok response => { handled := true, content := response }
      | .error msg =>
        { handled := false, content := "", error := some ("Claude fallback failed: " ++ msg) }
    | _, _ => result

/-- JavaScript `\w` word characters: letters, digits and underscore. -/
def isWordChar (c : Char) : Bool :=
  ('a' ≤ c && c ≤ 'z') || ('A' ≤ c && c ≤ 'Z') || ('0' ≤ c && c ≤ '9') || c = '_'

/-- JavaScript line terminators, which `.` in a regular expression does not
match. -/
def isLineTerm (c : Char) : Bool :=
  c = '\n' || c = '\r' || c = '\u2028' || c = '\u2029'

/-- `parseCommand`: trim, return `none` on empty; otherwise apply the
regular expression `^(\w+)(?:\s+(.*))?$` — a nonempty word-character token,
then either the end of the string or whitespace followed by a remainder
that contains no line terminator (the greedy `\s+` consumes the maximal
whitespace run).  On a match, the lowercased token and the trimmed
remainder (empty when absent). -/
def parseCommand (input : String) : Option (String × String) :=
  if jsTrim input = "" then none
  else if (jsTrim input).data.takeWhile isWordChar = [] then none
  else if (jsTrim input).data.dropWhile isWordChar = [] then
    some (jsToLower ⟨(jsTrim input).data.takeWhile isWordChar⟩, "")
  else if ((jsTrim input).data.dropWhile isWordChar).takeWhile isWs = [] then none
  else if (((jsTrim input).data.dropWhile isWordChar).dropWhile isWs).any isLineTerm then
    none
  else
    some (jsToLower ⟨(jsTrim input).data.takeWhile isWordChar⟩,
      jsTrim ⟨((jsTrim input).data.dropWhile isWordChar).dropWhile isWs⟩)

/-! The adapter registry (`src/adapters/index.ts`).  The private
`Map<string, SourceAdapter>` is modelled by its insertion-ordered entry
list: `Map.set` replaces the value in place when the key is present and
appends otherwise, and `Map.keys`/`Map.values` iterate in that order. -/

/-- Entry list of the registry's `Map`, in insertion order. -/
abbrev Registry := List (String × SourceAdapter)

/-- The empty registry. -/
def Registry.empty : Registry := []

/-- `register`: store by `adapter.type`; a present key keeps its position
and has its value replaced (the emitted console warning has no effect on
the state), an absent key is appended. -/
def Registry.register (r : Registry) (a : SourceAdapter) : Registry :=
  if r.any (fun e => e.1 == a.type) then
    r.map (fun e => if e.1 == a.type then (e.1, a) else e)
  else r ++ [(a.type, a)]

/-- `get`: the adapter stored under a type name, if any — `Map.get` over the
entry list. -/
def Registry.get : Registry → String → Option SourceAdapter
  | [], _ => none
  | (k, v) :: rest, t => if k == t then some v else Registry.get rest t

/-- `parse`: try each adapter in iteration order, returning the first
non-null result. -/
def Registry.parse : Registry → String → Option ActionableLogLine
  | [], _ => none
  | (_, a) :: rest, rawLine =>
    match a.parse rawLine with
    | some line => some line
    | none => Registry.parse rest rawLine

/-- `types`: the registered type names in iteration order. -/
def Registry.types (r : Registry) : List String := r.map (fun e => e.1)

/-- A registry produced by a sequence of `register` calls on a fresh
`DefaultAdapterRegistry`. -/
def buildRegistry (ops : List SourceAdapter) : Registry :=
  ops.foldl Registry.register Registry.empty

/-! State-passing rendering of `interpret` over a beads line, used to verify
the frame property on `line.source`.  Every operation that receives the
parsed context returns the context it operated on: the source bodies of the
command handlers, of `handleQuery` and of `formatContextForClaude` only read
the captured context object and contain no assignment to it or to
`line.source`, so each translated step threads the context through
unchanged. -/

/-- The beads line's `handleQuery` with the context object threaded through
explicitly; no command handler writes to it. -/
def beadsHandleQuerySt (env : BdEnv) (context : BeadsContext) (input : String) :
    QueryResult × BeadsContext :=
  (beadsHandleQuery env context input, context)

/-- `interpret` on a beads line with the context object threaded through
explicitly, covering the fallback formatter and handler call. -/
def interpretBeadsSt (cfg : ClaudeFallbackConfig) (env : BdEnv) (raw : String)
    (context : BeadsContext) (input : String) : QueryResult × BeadsContext :=
  let line := createActionableLogLine env raw context
  let step1 := beadsHandleQuerySt env context input
  if step1.1.handled then (step1.1, step1.2)
  else
    match cfg.enabled, cfg.handler with
    | true, some h =>
      ((match h (formatContextForClaude line) input with
        | .ok response => { handled := true, content := response }
        | .error msg =>
          { handled := false, content := "",
            error := some ("Claude fallback failed: " ++ msg) }), step1.2)
    | _, _ => (step1.1, step1.2)

/-! Concrete fixtures used by the witness theorems. -/

/-- An external-process environment that always succeeds with empty
output. -/
def envOk : BdEnv := fun _ => BdOutcome.ok ""

/-- A concrete parsed beads context. -/
def ctx0 : BeadsContext :=
  { timestamp := "2025-01-15T15:04:03.456Z", eventCode := "bd.issue.create",
    issueId := "bd-97ux", agentId := "steve", sessionId := "sess-abc123",
    details := "title=Implement ALLP" }

/-- A concrete context carrying the `"none"` sentinel entity id. -/
def ctxNone : BeadsContext :=
  { timestamp := "2025-01-15T15:04:03.456Z", eventCode := "ep.start",
    issueId := "none", agentId := "", sessionId := "", details := "" }

/-- A command that matches nothing, used as a `headD` default. -/
def nullCommand : Command :=
  { name := "", aliases := [], description := "",
    handler := fun _ => { handled := false, content := "" } }

/-- A minimal adapter whose `parse` never matches, with a chosen type
name. -/
def testAdapter (t : String) : SourceAdapter :=
  { type := t
    parse := fun _ => none
    getDefaultExpansion := fun line => line.getDefaultExpansion
    handleQuery := fun line input => line.handleQuery input
    getCommands := [] }

/-- An alternative minimal adapter with the same shape but a nonempty
command list, used to observe replacement in the registry. -/
def testAdapterAlt (t : String) : SourceAdapter :=
  { type := t
    parse := fun _ => none
    getDefaultExpansion := fun line => line.getDefaultExpansion
    handleQuery := fun line input => line.handleQuery input
    getCommands := [nullCommand] }

/-! Specification-side predicates, phrased with the same string primitives
the embedded code uses. -/

/-- First-occurrence order of a list of type names: the order JavaScript
`Map` keys take under repeated `set` calls. -/
def firstRegOrder (ts : List String) : List String :=
  ts.foldl (fun acc t => if t ∈ acc then acc else acc ++ [t]) []

/-- The grammar violations enumerated by the specification for the beads
adapter: empty, whitespace-only, fewer than five pipe-separated fields, a
first field without the ISO-8601 date-time start, or a second field that is
empty or contains no dot. -/
def beadsGrammarViolated (s : String) : Prop :=
  s = "" ∨ (∀ c ∈ s.data, isWs c = true)
    ∨ (jsSplit '|' s).length < 5
    ∨ isIsoStart ((jsSplit '|' s).getD 0 "") = false
    ∨ (jsSplit '|' s).getD 1 "" = ""
    ∨ includesChar ((jsSplit '|' s).getD 1 "") '.' = false

/-- The beads grammar, as the specification states it: at least five
pipe-separated fields, an ISO-8601 date-time start on the first field, and a
dot inside the second field. -/
def beadsGrammarOk (s : String) : Prop :=
  5 ≤ (jsSplit '|' s).length
    ∧ isIsoStart ((jsSplit '|' s).getD 0 "") = true
    ∧ includesChar ((jsSplit '|' s).getD 1 "") '.' = true

/-- Matchability of the trimmed input against `^(\w+)(?:\s+(.*))?$`: a
nonempty all-word-character token followed by nothing, or by a nonempty
whitespace run and a remainder free of line terminators. -/
def cmdShapeOk (t : String) : Prop :=
  ∃ w rest, t.data = w ++ rest ∧ w ≠ [] ∧ (∀ c ∈ w, isWordChar c = true)
    ∧ (rest = [] ∨ ∃ ws r, rest = ws ++ r ∧ ws ≠ [] ∧ (∀ c ∈ ws, isWs c = true)
        ∧ (∀ c ∈ r, isLineTerm c = false))

/-! Helper lemmas about the string primitives. -/

theorem splitPred_nil (p : Char → Bool) : splitPred p [] = [[]] := rfl

theorem splitPred_ne_nil (p : Char → Bool) (l : List Char) : splitPred p l ≠ [] := by
  induction l with
  | nil => simp [splitPred]
  | cons c cs ih =>
    rw [splitPred]
    by_cases hc : p c
    · simp [hc]
    · simp only [hc]
      match hr : splitPred p cs with
      | [] => exact absurd hr ih
      | h :: t => simp

theorem splitPred_no_sep (p : Char → Bool) (l : List Char)
    (h : ∀ c ∈ l, p c = false) : splitPred p l = [l] := by
  induction l with
  | nil => rfl
  | cons c cs ih =>
    have hc : p c = false := h c (List.mem_cons_self c cs)
    have ih' : splitPred p cs = [cs] := ih (fun x hx => h x (List.mem_cons_of_mem c hx))
    rw [splitPred, ih']
    simp [hc]

theorem isWs_ne_pipe (c : Char) (h : isWs c = true) : (c = '|') = False := by
  simp only [isWs, Bool.or_eq_true, decide_eq_true_eq] at h
  rcases h with ((((rfl | rfl) | rfl) | rfl) | rfl) | rfl <;> simp

theorem jsSplit_all_ws (s : String) (h : ∀ c ∈ s.data, isWs c = true) :
    jsSplit '|' s = [s] := by
  have hns : splitPred (fun c => decide (c = '|')) s.data = [s.data] := by
    apply splitPred_no_sep
    intro c hc
    simp [isWs_ne_pipe c (h c hc)]
  show (splitPred (fun c => decide (c = '|')) s.data).map _ = [s]
  rw [hns]
  rfl

theorem jsSplit_empty : jsSplit '|' "" = [""] := rfl

/-! C1: malformed input is rejected. -/

/-- C1.  Any string violating the beads grammar — empty, whitespace-only,
fewer than five pipe-separated fields, a first field without the ISO-8601
date-time start `YYYY-MM-DDT`, or a second field that is empty or contains
no dot — is parsed to `none` by `BeadsAdapter.parse`.  The embedded `parse`
is a total Lean function over all strings, reflecting that the source
returns on every path and never throws on data. -/
theorem beads_parse_rejects (env : BdEnv) (s : String) (h : beadsGrammarViolated s) :
    (BeadsAdapter env).parse s = none := by
  show beadsParse env s = none
  by_cases hs : s = ""
  · simp [beadsParse, hs]
  · rw [beadsParse, if_neg hs]
    rcases h with h | h | h | h | h | h
    · exact absurd h hs
    · rw [jsSplit_all_ws s h]
    · rcases hl : jsSplit '|' s with _ | ⟨a, _ | ⟨b, _ | ⟨c, _ | ⟨d, _ | ⟨e, rest⟩⟩⟩⟩⟩ <;>
        first
          | rfl
          | (rw [hl] at h; simp at h; omega)
    · rcases hl : jsSplit '|' s with _ | ⟨a, _ | ⟨b, _ | ⟨c, _ | ⟨d, _ | ⟨e, rest⟩⟩⟩⟩⟩ <;>
        try rfl
      rw [hl] at h
      simp only [List.getD_cons_zero] at h
      simp [h]
    · rcases hl : jsSplit '|' s with _ | ⟨a, _ | ⟨b, _ | ⟨c, _ | ⟨d, _ | ⟨e, rest⟩⟩⟩⟩⟩ <;>
        try rfl
      rw [hl] at h
      simp only [List.getD_cons_succ, List.getD_cons_zero] at h
      subst h
      simp
    · rcases hl : jsSplit '|' s with _ | ⟨a, _ | ⟨b, _ | ⟨c, _ | ⟨d, _ | ⟨e, rest⟩⟩⟩⟩⟩ <;>
        try rfl
      rw [hl] at h
      simp only [List.getD_cons_succ, List.getD_cons_zero] at h
      simp [h]

/-- Witness for C1 at the specification's own bad-timestamp example. -/
theorem beads_parse_rejects_witness :
    (BeadsAdapter envOk).parse "not-a-date|x.y|a|b|c" = none :=
  beads_parse_rejects envOk "not-a-date|x.y|a|b|c"
    (by unfold beadsGrammarViolated; decide)

/-! C2: well-formed input is accepted with the stated fields. -/

/-- C2.  Any string accepted by the beads grammar parses to a line whose
`message` is the second (`EVENT_CODE`) field, whose `raw` is the input
verbatim, and whose `source.id` is the third (`ENTITY_ID`) field, or the
`"none"` sentinel when that field is empty. -/
theorem beads_parse_accepts (env : BdEnv) (s : String) (h : beadsGrammarOk s) :
    ∃ line, (BeadsAdapter env).parse s = some line
      ∧ line.message = (jsSplit '|' s).getD 1 ""
      ∧ line.raw = s
      ∧ line.source.id =
          (if (jsSplit '|' s).getD 2 "" = "" then "none" else (jsSplit '|' s).getD 2 "") := by
  obtain ⟨hlen, hiso, hdot⟩ := h
  have hs : s ≠ "" := by
    intro he
    rw [he, jsSplit_empty] at hlen
    simp at hlen
  rcases hl : jsSplit '|' s with _ | ⟨a, _ | ⟨b, _ | ⟨c, _ | ⟨d, _ | ⟨e, rest⟩⟩⟩⟩⟩ <;>
      rw [hl] at hlen <;> simp at hlen
  rw [hl] at hiso hdot
  simp only [List.getD_cons_succ, List.getD_cons_zero] at hiso hdot
  have ha : a ≠ "" := by
    intro he
    rw [he] at hiso
    exact absurd hiso (by decide)
  have hb : b ≠ "" := by
    intro he
    rw [he] at hdot
    exact absurd hdot (by decide)
  refine ⟨createActionableLogLine env s
      ⟨a, b, if c = "" then "none" else c, d, e, joinSep "|" rest⟩, ?_, ?_, ?_, ?_⟩
  · show beadsParse env s = _
    rw [beadsParse, if_neg hs, hl]
    simp [ha, hb, hiso, hdot]
  · simp [createActionableLogLine]
  · simp [createActionableLogLine]
  · simp only [List.getD_cons_succ, List.getD_cons_zero]
    by_cases hc : c = "" <;> simp [createActionableLogLine, hc]

/-- Witness for C2 at the specification's example line. -/
theorem beads_parse_accepts_witness :
    ∃ line,
      (BeadsAdapter envOk).parse
          "2025-01-15T15:04:03.456Z|bd.issue.create|bd-97ux|steve|sess-abc123|title=Implement ALLP"
        = some line
      ∧ line.message = "bd.issue.create"
      ∧ line.raw =
          "2025-01-15T15:04:03.456Z|bd.issue.create|bd-97ux|steve|sess-abc123|title=Implement ALLP"
      ∧ line.source.id = "bd-97ux" := by
  obtain ⟨line, h1, h2, h3, h4⟩ := beads_parse_accepts envOk
    "2025-01-15T15:04:03.456Z|bd.issue.create|bd-97ux|steve|sess-abc123|title=Implement ALLP"
    (by unfold beadsGrammarOk; decide)
  exact ⟨line, h1, h2.trans (by decide), h3, h4.trans (by decide)⟩

/-! Registry lemmas. -/

theorem get_cons (k : String) (v : SourceAdapter) (rest : Registry) (t : String) :
    Registry.get ((k, v) :: rest) t = if k = t then some v else Registry.get rest t := by
  rw [Registry.get]
  by_cases hk : k = t <;> simp [hk]

theorem get_replace (r : Registry) (a : SourceAdapter) (t : String) :
    Registry.get (r.map (fun e => if e.1 == a.type then (e.1, a) else e)) t
      = if t = a.type then Option.map (fun _ => a) (Registry.get r t) else Registry.get r t := by
  induction r with
  | nil => split <;> rfl
  | cons e rest ih =>
    obtain ⟨k, v⟩ := e
    rw [List.map_cons]
    by_cases ha : k = a.type
    · rw [if_pos (by simpa using ha)]
      rw [get_cons, get_cons]
      by_cases hk : k = t
      · have hta : t = a.type := hk ▸ ha
        rw [if_pos hk, if_pos hta, if_pos hk]
        rfl
      · simp only [if_neg hk]
        exact ih
    · rw [if_neg (by simpa using ha)]
      rw [get_cons, get_cons]
      by_cases hk : k = t
      · have hta : ¬ t = a.type := fun h => ha (hk.trans h)
        simp only [if_pos hk, if_neg hta]
      · simp only [if_neg hk]
        exact ih

theorem get_isSome_of_any (r : Registry) (t : String)
    (hp : r.any (fun e => e.1 == t) = true) : (Registry.get r t).isSome = true := by
  induction r with
  | nil => simp at hp
  | cons e rest ih =>
    obtain ⟨k, v⟩ := e
    rw [get_cons]
    by_cases hk : k = t
    · simp [hk]
    · rw [if_neg hk]
      apply ih
      rcases List.any_eq_true.mp hp with ⟨f, hf, hpf⟩
      rcases List.mem_cons.mp hf with rfl | hmem
      · exact absurd (beq_iff_eq.mp hpf) hk
      · exact List.any_eq_true.mpr ⟨f, hmem, hpf⟩

theorem get_eq_none_of_not_any (r : Registry) (t : String)
    (hp : r.any (fun e => e.1 == t) = false) : Registry.get r t = none := by
  induction r with
  | nil => rfl
  | cons e rest ih =>
    obtain ⟨k, v⟩ := e
    rw [List.any_cons] at hp
    rcases Bool.or_eq_false_iff.mp hp with ⟨h1, h2⟩
    rw [get_cons, if_neg (by simpa using h1)]
    exact ih h2

theorem get_append (r l : Registry) (t : String) :
    Registry.get (r ++ l) t = (Registry.get r t).or (Registry.get l t) := by
  induction r with
  | nil => simp [Registry.get]
  | cons e rest ih =>
    obtain ⟨k, v⟩ := e
    rw [List.cons_append, get_cons, get_cons]
    by_cases hk : k = t <;> simp [hk, ih]

theorem register_get (r : Registry) (a : SourceAdapter) (t : String) :
    Registry.get (r.register a) t = if t = a.type then some a else Registry.get r t := by
  rw [Registry.register]
  by_cases hp : r.any (fun e => e.1 == a.type)
  · rw [if_pos hp, get_replace]
    by_cases ht : t = a.type
    · rw [if_pos ht, if_pos ht, ht]
      obtain ⟨v, hv⟩ := Option.isSome_iff_exists.mp (get_isSome_of_any r a.type hp)
      rw [hv]
      rfl
    · rw [if_neg ht, if_neg ht]
  · rw [if_neg hp, get_append, get_cons]
    have hpf : r.any (fun e => e.1 == a.type) = false := by
      revert hp
      cases r.any (fun e => e.1 == a.type) <;> simp
    by_cases ht : t = a.type
    · have hpf2 : r.any (fun e => e.1 == t) = false := by rw [ht]; exact hpf
      rw [if_pos ht, if_pos ht.symm, get_eq_none_of_not_any r t hpf2]
      rfl
    · rw [if_neg ht, if_neg (fun h => ht h.symm)]
      rw [show Registry.get ([] : Registry) t = none from rfl, Option.or_none]

theorem register_types (r : Registry) (a : SourceAdapter) :
    Registry.types (r.register a)
      = if a.type ∈ Registry.types r then Registry.types r
        else Registry.types r ++ [a.type] := by
  rw [Registry.register]
  have hmem : (r.any fun e => e.1 == a.type) = true ↔ a.type ∈ Registry.types r := by
    rw [List.any_eq_true]
    constructor
    · rintro ⟨e, he, hpe⟩
      exact List.mem_map.mpr ⟨e, he, beq_iff_eq.mp hpe⟩
    · rintro hm
      obtain ⟨e, he, hpe⟩ := List.mem_map.mp hm
      exact ⟨e, he, by simp [hpe]⟩
  by_cases hp : r.any (fun e => e.1 == a.type)
  · rw [if_pos hp, if_pos (hmem.mp hp)]
    rw [Registry.types, List.map_map]
    apply List.map_congr_left
    intro e _
    by_cases he : e.1 = a.type <;> simp [he]
  · rw [if_neg hp, if_neg (fun h => hp (hmem.mpr h))]
    simp [Registry.types]

theorem register_types_nodup (r : Registry) (a : SourceAdapter)
    (h : (Registry.types r).Nodup) : (Registry.types (r.register a)).Nodup := by
  rw [register_types]
  by_cases hm : a.type ∈ Registry.types r
  · rw [if_pos hm]
    exact h
  · rw [if_neg hm]
    exact h.append (List.nodup_singleton _)
      (fun x hx hx2 => hm (List.mem_singleton.mp hx2 ▸ hx))

theorem parse_eq_findSome? (r : Registry) (raw : String) :
    Registry.parse r raw = (r.map (fun e => e.2)).findSome? (fun a => a.parse raw) := by
  induction r with
  | nil => rfl
  | cons e rest ih =>
    obtain ⟨k, v⟩ := e
    rw [Registry.parse, List.map_cons, List.findSome?_cons]
    cases v.parse raw <;> simp [ih]

theorem buildRegistry_types_nodup (ops : List SourceAdapter) :
    (Registry.types (buildRegistry ops)).Nodup := by
  suffices h : ∀ r : Registry, (Registry.types r).Nodup →
      (Registry.types (ops.foldl Registry.register r)).Nodup from
    h Registry.empty (by simp [Registry.empty, Registry.types])
  induction ops with
  | nil => exact fun r hr => hr
  | cons a ops ih =>
    intro r hr
    exact ih (r.register a) (register_types_nodup r a hr)

theorem buildRegistry_get (ops : List SourceAdapter) (t : String) :
    Registry.get (buildRegistry ops) t
      = (ops.filter (fun a => a.type == t)).getLast? := by
  suffices h : ∀ r : Registry, Registry.get (ops.foldl Registry.register r) t
      = ((ops.filter (fun a => a.type == t)).getLast?).or (Registry.get r t) by
    rw [buildRegistry, h Registry.empty]
    simp [Registry.empty, Registry.get]
  induction ops with
  | nil => intro r; simp [Registry.get]
  | cons a ops ih =>
    intro r
    rw [List.foldl_cons, ih (r.register a), register_get]
    by_cases hpa : a.type = t
    · rw [List.filter_cons_of_pos (by simpa using hpa), if_pos hpa.symm]
      rw [List.getLast?_cons]
      cases hfil : (List.filter (fun a => a.type == t) ops).getLast? <;>
        simp [hfil, List.getLastD_eq_getLast?]
    · rw [List.filter_cons_of_neg (by simpa using hpa), if_neg (fun h => hpa h.symm)]

theorem buildRegistry_types_firstRegOrder (ops : List SourceAdapter) :
    Registry.types (buildRegistry ops) = firstRegOrder (ops.map (fun a => a.type)) := by
  suffices h : ∀ r : Registry, Registry.types (ops.foldl Registry.register r)
      = (ops.map (fun a => a.type)).foldl
          (fun acc t => if t ∈ acc then acc else acc ++ [t]) (Registry.types r) by
    rw [buildRegistry, firstRegOrder, h Registry.empty]
    rfl
  induction ops with
  | nil => intro r; rfl
  | cons a ops ih =>
    intro r
    rw [List.foldl_cons, ih (r.register a), List.map_cons, List.foldl_cons, register_types]

/-! C3: registry routing. -/

/-- C3.  For a registry built by any sequence of `register` calls:
`parse` tries the stored adapters in iteration order, returning the first
non-null result; an empty registry parses to `none`; if no stored adapter
matches, `parse` is `none`; `get` yields the adapter registered last under
the requested type name (re-registration replaces for all future `get` and
`parse` calls); and `types()` contains no duplicates. -/
theorem registry_behaviour (ops : List SourceAdapter) (raw : String) (t : String) :
    Registry.parse (buildRegistry ops) raw
        = ((buildRegistry ops).map (fun e => e.2)).findSome? (fun a => a.parse raw)
  ∧ Registry.parse Registry.empty raw = none
  ∧ ((∀ a ∈ (buildRegistry ops).map (fun e => e.2), a.parse raw = none) →
      Registry.parse (buildRegistry ops) raw = none)
  ∧ Registry.get (buildRegistry ops) t = (ops.filter (fun a => a.type == t)).getLast?
  ∧ (Registry.types (buildRegistry ops)).Nodup := by
  refine ⟨parse_eq_findSome? _ raw, rfl, ?_, buildRegistry_get ops t,
    buildRegistry_types_nodup ops⟩
  intro hall
  rw [parse_eq_findSome? _ raw]
  exact List.findSome?_eq_none_iff.mpr hall

/-- Witness for C3: a one-adapter registry whose adapter never matches. -/
theorem registry_behaviour_witness :
    Registry.parse (buildRegistry [testAdapter "x"]) "z" = none
  ∧ Registry.get (buildRegistry [testAdapter "x"]) "x" = some (testAdapter "x") := by
  have h := registry_behaviour [testAdapter "x"] "z" "x"
  refine ⟨h.2.2.1 ?_, h.2.2.2.1.trans rfl⟩
  intro a ha
  rw [show (buildRegistry [testAdapter "x"]).map (fun e => e.2) = [testAdapter "x"]
    from rfl] at ha
  rw [List.mem_singleton.mp ha]
  rfl

/-! C9: re-registration keeps the original position. -/

/-- C9.  The registry's iteration order — used by `parse` and reported by
`types()` — is the order of each type name's first registration:
re-registering an existing type keeps its position (the key is not moved to
the end) while replacing the stored adapter for future `get` calls. -/
theorem registry_first_registration_order (ops : List SourceAdapter) (r : Registry)
    (a : SourceAdapter) :
    Registry.types (buildRegistry ops) = firstRegOrder (ops.map (fun x => x.type))
  ∧ (a.type ∈ Registry.types r →
      Registry.types (r.register a) = Registry.types r
        ∧ Registry.get (r.register a) a.type = some a) := by
  refine ⟨buildRegistry_types_firstRegOrder ops, fun hmem => ⟨?_, ?_⟩⟩
  · rw [register_types, if_pos hmem]
  · rw [register_get, if_pos rfl]

/-- Witness for C9: replacing the only registered adapter keeps the type
list and updates the stored adapter. -/
theorem registry_first_registration_order_witness :
    Registry.types (Registry.register (buildRegistry [testAdapter "x"]) (testAdapterAlt "x"))
        = Registry.types (buildRegistry [testAdapter "x"])
  ∧ Registry.get (Registry.register (buildRegistry [testAdapter "x"]) (testAdapterAlt "x")) "x"
        = some (testAdapterAlt "x") := by
  have h := (registry_first_registration_order [] (buildRegistry [testAdapter "x"])
    (testAdapterAlt "x")).2 (by decide)
  exact ⟨h.1, h.2⟩

/-! C4: fallback invocation discipline of `interpret`. -/

/-- C4.  `interpret` returns a handled `handleQuery` result unchanged; when
the line's own result is unhandled it consults the fallback exactly when the
configuration is enabled with a handler set, returning the handler's
response as `{handled := true}` or its failure as the
`Claude fallback failed` error; with the fallback disabled or without a
handler the original unhandled result is returned verbatim (in particular,
the result then does not depend on the handler at all). -/
theorem interpret_fallback_cases (cfg : ClaudeFallbackConfig) (line : ActionableLogLine)
    (input : String) :
    ((line.handleQuery input).handled = true →
      interpret cfg line input = line.handleQuery input)
  ∧ ((line.handleQuery input).handled = false →
      ∀ h, cfg.enabled = true → cfg.handler = some h →
        interpret cfg line input =
          match h (formatContextForClaude line) input with
          | .ok response => { handled := true, content := response, error := none }
          | .error msg =>
            { handled := false, content := "",
              error := some ("Claude fallback failed: " ++ msg) })
  ∧ ((line.handleQuery input).handled = false →
      cfg.enabled = false ∨ cfg.handler = none →
        interpret cfg line input = line.handleQuery input) := by
  refine ⟨?_, ?_, ?_⟩
  · intro hh
    rw [interpret]
    simp only [hh, if_true]
  · intro hh h he hs
    rw [interpret]
    simp only [hh, Bool.false_eq_true, if_false, he, hs]
  · intro hh hcfg
    rw [interpret]
    simp only [hh, Bool.false_eq_true, if_false]
    rcases hcfg with hc | hc
    · rw [hc]
    · rw [hc]
      cases cfg.enabled <;> rfl

/-- Witness for C4: an unhandled query on a concrete beads line is answered
by a configured fallback handler. -/
theorem interpret_fallback_cases_witness :
    (((createActionableLogLine envOk "r" ctx0).handleQuery "unknowncmd").handled = false)
  ∧ interpret { enabled := true, handler := some (fun _ _ => Except.ok "resp") }
      (createActionableLogLine envOk "r" ctx0) "unknowncmd"
      = { handled := true, content := "resp", error := none } := by
  have h := (interpret_fallback_cases
    { enabled := true, handler := some (fun _ _ => Except.ok "resp") }
    (createActionableLogLine envOk "r" ctx0) "unknowncmd").2.1
  exact ⟨by decide, (h (by decide) (fun _ _ => Except.ok "resp") rfl rfl).trans rfl⟩

/-! C5: command dispatch of the beads line's `handleQuery`. -/

theorem strAppend_assoc (a b c : String) : a ++ b ++ c = a ++ (b ++ c) := by
  cases a
  cases b
  cases c
  show String.append (String.append _ _) _ = String.append _ (String.append _ _)
  simp [String.append, List.append_assoc]

theorem findCommand_eq_find? (tok : String) (cmds : List Command) :
    findCommand tok cmds = cmds.find? (fun c => c.name == tok || c.aliases.contains tok) := by
  induction cmds with
  | nil => rfl
  | cons c rest ih =>
    rw [findCommand, List.find?_cons]
    by_cases hc : (c.name == tok || c.aliases.contains tok) = true
    · rw [if_pos hc, hc]
    · rw [if_neg hc, Bool.of_not_eq_true hc, ih]

/-- C5.  The beads line's `handleQuery` takes the first whitespace token of
the trimmed, lowercased input as the command token and the remaining tokens
rejoined with single spaces as the parameter string; the command list is
`show, related, deps, category, session, before, after` in that order; the
first command whose name or alias equals the token receives the parameter
string; with no match the result is the unknown-command error listing the
command names. -/
theorem beads_handleQuery_dispatch (env : BdEnv) (ctx : BeadsContext) (input : String) :
    ((createBeadsCommands env ctx).map (fun c => c.name)
        = ["show", "related", "deps", "category", "session", "before", "after"])
  ∧ (∀ c, (createBeadsCommands env ctx).find?
        (fun c => c.name == cmdTokenOf input || c.aliases.contains (cmdTokenOf input))
          = some c →
      beadsHandleQuery env ctx input = c.handler (cmdParamsOf input))
  ∧ ((createBeadsCommands env ctx).find?
        (fun c => c.name == cmdTokenOf input || c.aliases.contains (cmdTokenOf input))
          = none →
      beadsHandleQuery env ctx input =
        { handled := false, content := "",
          error := some ("Unknown command: " ++ cmdTokenOf input ++
            ". Try: show, related, deps, category, session, before, after") }) := by
  refine ⟨rfl, ?_, ?_⟩
  · intro c hc
    rw [beadsHandleQuery, findCommand_eq_find?, hc]
  · intro hc
    rw [beadsHandleQuery, findCommand_eq_find?, hc]
    show QueryResult.mk false ""
        (some ("Unknown command: " ++ cmdTokenOf input ++ ". Try: " ++
          joinSep ", " ((createBeadsCommands env ctx).map (fun c => c.name))))
      = QueryResult.mk false ""
        (some ("Unknown command: " ++ cmdTokenOf input ++
          ". Try: show, related, deps, category, session, before, after"))
    rw [strAppend_assoc, show (". Try: " : String) ++
        joinSep ", " ((createBeadsCommands env ctx).map (fun c => c.name))
      = ". Try: show, related, deps, category, session, before, after" from rfl]

/-- Witness for C5: the specification's unknown-command scenario. -/
theorem beads_handleQuery_dispatch_witness :
    beadsHandleQuery envOk ctx0 "unknowncmd"
      = { handled := false, content := "",
          error := some
            "Unknown command: unknowncmd. Try: show, related, deps, category, session, before, after" } := by
  exact ((beads_handleQuery_dispatch envOk ctx0 "unknowncmd").2.2 rfl).trans rfl

/-! C8: command handlers never throw and short-circuit on the sentinel. -/

/-- C8.  Every one of the seven beads command handlers yields a result with
`handled := true` and no `error` for every external-process behaviour —
process failure is caught inside `runBdCommand` and surfaced as ordinary
content — and the `show` and `deps` handlers on the `"none"` sentinel
entity id return the informational message, a constant independent of the
external process. -/
theorem beads_commands_error_handling (env : BdEnv) (ctx : BeadsContext) (k : Nat)
    (p : String) (hk : k < 7) :
    (((createBeadsCommands env ctx).getD k nullCommand).handler p).handled = true
  ∧ (((createBeadsCommands env ctx).getD k nullCommand).handler p).error = none
  ∧ (ctx.issueId = "none" →
      (((createBeadsCommands env ctx).getD k nullCommand).name = "show"
        ∨ ((createBeadsCommands env ctx).getD k nullCommand).name = "deps") →
      ((createBeadsCommands env ctx).getD k nullCommand).handler p
        = { handled := true, content := "No issue associated with this event",
            error := none }) := by
  refine ⟨?_, ?_, fun h1 h2 => ?_⟩
  · interval_cases k <;>
      simp only [createBeadsCommands, List.getD_cons_zero, List.getD_cons_succ] <;>
      (split <;> rfl)
  · interval_cases k <;>
      simp only [createBeadsCommands, List.getD_cons_zero, List.getD_cons_succ] <;>
      (split <;> rfl)
  · interval_cases k <;>
      simp only [createBeadsCommands, List.getD_cons_zero, List.getD_cons_succ] at h2 ⊢ <;>
      first
        | (rcases h2 with h2 | h2 <;> exact absurd h2 (by decide))
        | simp [h1]

/-- Witness for C8: the `show` handler on a sentinel-id context. -/
theorem beads_commands_error_handling_witness :
    (((createBeadsCommands envOk ctxNone).getD 0 nullCommand).handler "").handled = true
  ∧ ((createBeadsCommands envOk ctxNone).getD 0 nullCommand).handler ""
      = { handled := true, content := "No issue associated with this event",
          error := none } := by
  have h := beads_commands_error_handling envOk ctxNone 0 "" (by decide)
  exact ⟨h.1, h.2.2 rfl (Or.inl rfl)⟩

/-! C10: the empty query is an unknown command with an empty token, and is
therefore forwarded to an enabled fallback. -/

/-- C10.  On an empty or whitespace-only input the beads line's
`handleQuery` reports the unknown command with an empty token — no special
case rejects emptiness — and `interpret` with an enabled, configured
fallback therefore hands the empty query to the fallback handler, whose
outcome alone determines the result. -/
theorem beads_empty_query (env : BdEnv) (ctx : BeadsContext) (input : String)
    (h : jsTrim input = "") :
    beadsHandleQuery env ctx input
      = { handled := false, content := "",
          error := some
            "Unknown command: . Try: show, related, deps, category, session, before, after" }
  ∧ ∀ raw hnd,
      interpret { enabled := true, handler := some hnd }
          (createActionableLogLine env raw ctx) input
        = match hnd (formatContextForClaude (createActionableLogLine env raw ctx)) input with
          | .ok response => { handled := true, content := response, error := none }
          | .error msg =>
            { handled := false, content := "",
              error := some ("Claude fallback failed: " ++ msg) } := by
  have h1 : beadsHandleQuery env ctx input
      = { handled := false, content := "",
          error := some
            "Unknown command: . Try: show, related, deps, category, session, before, after" } := by
    rw [beadsHandleQuery, cmdTokenOf, cmdParamsOf, h]
    rfl
  refine ⟨h1, fun raw hnd => ?_⟩
  rw [interpret]
  rw [show (createActionableLogLine env raw ctx).handleQuery input
    = beadsHandleQuery env ctx input from rfl, h1]
  rfl

/-- Witness for C10: a whitespace-only input with a concrete succeeding
fallback handler. -/
theorem beads_empty_query_witness :
    beadsHandleQuery envOk ctx0 "  "
      = { handled := false, content := "",
          error := some
            "Unknown command: . Try: show, related, deps, category, session, before, after" }
  ∧ interpret { enabled := true, handler := some (fun _ _ => Except.ok "resp") }
      (createActionableLogLine envOk "r" ctx0) "  "
      = { handled := true, content := "resp", error := none } := by
  have h := beads_empty_query envOk ctx0 "  " (by decide)
  exact ⟨h.1, (h.2 "r" (fun _ _ => Except.ok "resp")).trans rfl⟩

/-! C6: no sequence of `interpret` calls changes the line's source. -/

theorem interpretBeadsSt_preserves (cfg : ClaudeFallbackConfig) (env : BdEnv)
    (raw : String) (st : BeadsContext) (inp : String) :
    (interpretBeadsSt cfg env raw st inp).2 = st := by
  rw [interpretBeadsSt]
  by_cases hh : (beadsHandleQuerySt env st inp).1.handled
  · simp only [hh, if_true]
    rfl
  · simp only [hh, Bool.false_eq_true, if_false]
    cases cfg.enabled <;> cases hc : cfg.handler <;> simp [beadsHandleQuerySt]

/-- C6.  Threading the parsed context through every operation `interpret`
performs on a beads line — the command dispatch, each handler, and the
fallback context formatter, none of which writes to the captured context —
any sequence of `interpret` calls leaves the context, and hence the line's
`source`, structurally unchanged. -/
theorem interpret_preserves_source (cfg : ClaudeFallbackConfig) (env : BdEnv)
    (raw : String) (ctx : BeadsContext) (inputs : List String) :
    inputs.foldl (fun st inp => (interpretBeadsSt cfg env raw st inp).2) ctx = ctx
  ∧ (createActionableLogLine env raw
        (inputs.foldl (fun st inp => (interpretBeadsSt cfg env raw st inp).2) ctx)).source
      = (createActionableLogLine env raw ctx).source := by
  have hfold : inputs.foldl (fun st inp => (interpretBeadsSt cfg env raw st inp).2) ctx
      = ctx := by
    induction inputs with
    | nil => rfl
    | cons i l ih =>
      rw [List.foldl_cons, interpretBeadsSt_preserves]
      exact ih
  exact ⟨hfold, by rw [hfold]⟩

/-! C7: `parseCommand` nullity.  The specification claims `parseCommand`
returns null exactly on whitespace-only input, but the source matches the
trimmed input against the regular expression `^(\w+)(?:\s+(.*))?$` and also
returns null whenever that match fails — for instance on `"!"`. -/

/-- Counterexample to C7 as stated: `"!"` trims to a nonempty string, yet
`parseCommand "!"` is null. -/
theorem parseCommand_nonword_counterexample :
    jsTrim "!" ≠ "" ∧ parseCommand "!" = none := by
  decide

theorem ws_not_word (c : Char) (h : isWs c = true) : isWordChar c = false := by
  simp only [isWs, Bool.or_eq_true, decide_eq_true_eq] at h
  rcases h with ((((rfl | rfl) | rfl) | rfl) | rfl) | rfl <;> rfl

theorem takeWhile_dropWhile_split (p : Char → Bool) (xs ys : List Char)
    (hxs : ∀ c ∈ xs, p c = true) (hys : ∀ c, ys.head? = some c → p c = false) :
    (xs ++ ys).takeWhile p = xs ∧ (xs ++ ys).dropWhile p = ys := by
  induction xs with
  | nil =>
    simp only [List.nil_append]
    cases ys with
    | nil => exact ⟨rfl, rfl⟩
    | cons y ys' =>
      have hy : p y = false := hys y rfl
      simp [List.takeWhile_cons, List.dropWhile_cons, hy]
  | cons x xs' ih =>
    have hx : p x = true := hxs x (List.mem_cons_self _ _)
    have ih' := ih (fun c hc => hxs c (List.mem_cons_of_mem _ hc))
    simp [List.takeWhile_cons, List.dropWhile_cons, hx, ih'.1, ih'.2]

theorem dropWhile_append_all (p : Char → Bool) (xs ys : List Char)
    (hxs : ∀ c ∈ xs, p c = true) :
    (xs ++ ys).dropWhile p = ys.dropWhile p := by
  induction xs with
  | nil => rfl
  | cons x xs' ih =>
    have hx : p x = true := hxs x (List.mem_cons_self _ _)
    simp [List.dropWhile_cons, hx, ih (fun c hc => hxs c (List.mem_cons_of_mem _ hc))]

theorem mem_of_mem_dropWhile (p : Char → Bool) (l : List Char) (c : Char)
    (h : c ∈ l.dropWhile p) : c ∈ l := by
  induction l with
  | nil => simp at h
  | cons x xs ih =>
    rw [List.dropWhile_cons] at h
    by_cases hx : p x
    · simp only [hx, if_true] at h
      exact List.mem_cons_of_mem _ (ih h)
    · simp only [hx, Bool.false_eq_true, if_false] at h
      exact h

theorem data_ne_nil_of_shape (t : String) (h : cmdShapeOk t) : t ≠ "" := by
  obtain ⟨w, rest, hd, hw, -, -⟩ := h
  intro he
  rw [he] at hd
  cases w with
  | nil => exact hw rfl
  | cons c cs => exact absurd hd.symm (by simp)

/-- C7 as amended.  `parseCommand` returns null exactly when the trimmed
input fails to match `^(\w+)(?:\s+(.*))?$` — in particular on empty or
whitespace-only input, but also whenever the leading token contains a
non-word character; on a match it returns the lowercased leading
word-character token and the trimmed remainder (empty when absent). -/
theorem parseCommand_amended (input : String) :
    (parseCommand input = none ↔ ¬ cmdShapeOk (jsTrim input))
  ∧ (∀ c p, parseCommand input = some (c, p) →
      c = jsToLower ⟨(jsTrim input).data.takeWhile isWordChar⟩
      ∧ p = jsTrim ⟨((jsTrim input).data.dropWhile isWordChar).dropWhile isWs⟩) := by
  constructor
  · constructor
    · intro hn hshape
      obtain ⟨w, rest, hd, hw, hword, hrest⟩ := hshape
      have hne : jsTrim input ≠ "" := data_ne_nil_of_shape _ ⟨w, rest, hd, hw, hword, hrest⟩
      rw [parseCommand, if_neg hne] at hn
      rcases hrest with rfl | ⟨ws, r, hrw, hws, hwsall, hr⟩
      · -- rest empty: the whole trimmed input is the word token
        rw [List.append_nil] at hd
        have hsplit := takeWhile_dropWhile_split isWordChar w [] hword (by simp)
        rw [List.append_nil] at hsplit
        rw [hd] at hn
        rw [if_neg (show ¬List.takeWhile isWordChar w = [] by rw [hsplit.1]; exact hw),
          hsplit.2] at hn
        simp at hn
      · -- rest = ws ++ r: whitespace run then a terminator-free remainder
        have hwshead : ∀ c, (ws ++ r).head? = some c → isWordChar c = false := by
          intro c hc
          cases ws with
          | nil => exact absurd rfl hws
          | cons y ys =>
            rw [List.cons_append] at hc
            simp only [List.head?_cons, Option.some.injEq] at hc
            exact hc ▸ ws_not_word y (hwsall y (List.mem_cons_self _ _))
        have hsplit := takeWhile_dropWhile_split isWordChar w (ws ++ r) hword hwshead
        rw [hrw] at hd
        rw [hd] at hn
        rw [if_neg (show ¬List.takeWhile isWordChar (w ++ (ws ++ r)) = []
              by rw [hsplit.1]; exact hw),
          hsplit.2] at hn
        have hrne : ws ++ r ≠ [] := by
          cases ws with
          | nil => exact absurd rfl hws
          | cons y ys => simp
        rw [if_neg hrne] at hn
        have hwsne : ¬(ws ++ r).takeWhile isWs = [] := by
          cases ws with
          | nil => exact absurd rfl hws
          | cons y ys =>
            rw [List.cons_append, List.takeWhile_cons,
              if_pos (hwsall y (List.mem_cons_self _ _))]
            simp
        rw [if_neg hwsne] at hn
        have hany : ((ws ++ r).dropWhile isWs).any isLineTerm = false := by
          rw [dropWhile_append_all isWs ws r hwsall]
          rw [List.any_eq_false]
          intro c hc
          rw [hr c (mem_of_mem_dropWhile isWs r c hc)]
          simp
        rw [if_neg (by simp [hany])] at hn
        simp at hn
    · intro hshape
      rw [parseCommand]
      by_cases hne : jsTrim input = ""
      · rw [if_pos hne]
      · rw [if_neg hne]
        by_cases hw : (jsTrim input).data.takeWhile isWordChar = []
        · rw [if_pos hw]
        · rw [if_neg hw]
          by_cases htail : (jsTrim input).data.dropWhile isWordChar = []
          · exfalso
            apply hshape
            refine ⟨(jsTrim input).data.takeWhile isWordChar, [], ?_, hw,
              fun c hc => List.mem_takeWhile_imp hc, Or.inl rfl⟩
            rw [← htail]
            exact (List.takeWhile_append_dropWhile ..).symm
          · rw [if_neg htail]
            by_cases hws : ((jsTrim input).data.dropWhile isWordChar).takeWhile isWs = []
            · rw [if_pos hws]
            · rw [if_neg hws]
              by_cases hterm :
                  (((jsTrim input).data.dropWhile isWordChar).dropWhile isWs).any
                    isLineTerm = true
              · rw [if_pos (by simp [hterm])]
              · exfalso
                apply hshape
                refine ⟨(jsTrim input).data.takeWhile isWordChar,
                  (jsTrim input).data.dropWhile isWordChar, ?_, hw,
                  fun c hc => List.mem_takeWhile_imp hc, Or.inr ?_⟩
                · exact (List.takeWhile_append_dropWhile ..).symm
                · refine ⟨((jsTrim input).data.dropWhile isWordChar).takeWhile isWs,
                    ((jsTrim input).data.dropWhile isWordChar).dropWhile isWs,
                    (List.takeWhile_append_dropWhile ..).symm, hws,
                    fun c hc => List.mem_takeWhile_imp hc, ?_⟩
                  intro c hc
                  rcases Bool.eq_false_or_eq_true (isLineTerm c) with ht | hf
                  · exact absurd (List.any_eq_true.mpr ⟨c, hc, ht⟩) hterm
                  · exact hf
  · intro c p hcp
    rw [parseCommand] at hcp
    by_cases hne : jsTrim input = ""
    · rw [if_pos hne] at hcp
      cases hcp
    · rw [if_neg hne] at hcp
      by_cases hw : (jsTrim input).data.takeWhile isWordChar = []
      · rw [if_pos hw] at hcp
        cases hcp
      · rw [if_neg hw] at hcp
        by_cases htail : (jsTrim input).data.dropWhile isWordChar = []
        · rw [if_pos htail] at hcp
          simp only [Option.some.injEq, Prod.mk.injEq] at hcp
          obtain ⟨rfl, rfl⟩ := hcp
          refine ⟨rfl, ?_⟩
          rw [htail]
          rfl
        · rw [if_neg htail] at hcp
          by_cases hws : ((jsTrim input).data.dropWhile isWordChar).takeWhile isWs = []
          · rw [if_pos hws] at hcp
            cases hcp
          · rw [if_neg hws] at hcp
            by_cases hterm :
                (((jsTrim input).data.dropWhile isWordChar).dropWhile isWs).any
                  isLineTerm = true
            · rw [if_pos (by simp [hterm])] at hcp
              cases hcp
            · rw [if_neg (by simp [hterm])] at hcp
              simp only [Option.some.injEq, Prod.mk.injEq] at hcp
              obtain ⟨rfl, rfl⟩ := hcp
              exact ⟨rfl, rfl⟩

/-- Witness for the amended C7 at the specification's own scenario
`parseCommand("  SHOW  param  ")`. -/
theorem parseCommand_amended_witness :
    parseCommand "  SHOW  param  " = some ("show", "param")
  ∧ ("show" : String) = jsToLower ⟨(jsTrim "  SHOW  param  ").data.takeWhile isWordChar⟩
  ∧ ("param" : String)
      = jsTrim ⟨((jsTrim "  SHOW  param  ").data.dropWhile isWordChar).dropWhile isWs⟩ := by
  have h := (parseCommand_amended "  SHOW  param  ").2 "show" "param" (by decide)
  exact ⟨by decide, h.1, h.2⟩

end ALLP
